import Mathlib

/-!
# Verification of the turbogrep core against its specification

Shallow embedding of the turbogrep source (chunker, synchronizer, remote
index client, embedder, search orchestrator, project resolver) in Lean 4,
together with theorems settling the spec claims.

Modelling conventions:
* Rust `u64`/`u32`/`usize` values are `Nat` with explicit `% 2 ^ 32` /
  `< 2 ^ 64` bounds where overflow or width matters.
* Byte strings (`&[u8]`, UTF-8 string contents) are `List UInt8`.
* The external xxhash crate is not part of this repository; its 64-bit
  hash is abstracted as a function argument `h : List UInt8 → Nat` (with
  `∀ bs, h bs < 2 ^ 64` as an explicit hypothesis where the width is
  claimed).  Likewise the external tree-sitter parse tree is passed in as
  data, and f32 vector payloads are kept as opaque 32-bit patterns.
* Fallible Rust functions returning `Result` become `Except` values;
  external I/O outcomes are supplied as oracle arguments.
-/

namespace Turbogrep

/-- Byte strings: the model of Rust `&[u8]` / UTF-8 string contents. -/
abbrev ByteStr := List UInt8

/-- Little-endian 8-byte encoding of an integer, as produced by Rust's
`u64::to_le_bytes` / `usize::to_le_bytes` on a 64-bit target. -/
def leBytes8 (n : Nat) : ByteStr :=
  (List.range 8).map (fun i => UInt8.ofNat (n / 256 ^ i % 256))

/-- Byte slice `&source[a..b]` (total model of Rust slicing). -/
def sliceBytes (src : ByteStr) (a b : Nat) : ByteStr :=
  (src.drop a).take (b - a)

/-- UTF-8 encoding of one scalar value. -/
def utf8Bytes (c : Char) : ByteStr :=
  let v := c.toNat
  if v < 128 then [UInt8.ofNat v]
  else if v < 2048 then
    [UInt8.ofNat (192 + v / 64), UInt8.ofNat (128 + v % 64)]
  else if v < 65536 then
    [UInt8.ofNat (224 + v / 4096), UInt8.ofNat (128 + v / 64 % 64),
     UInt8.ofNat (128 + v % 64)]
  else
    [UInt8.ofNat (240 + v / 262144), UInt8.ofNat (128 + v / 4096 % 64),
     UInt8.ofNat (128 + v / 64 % 64), UInt8.ofNat (128 + v % 64)]

/-- UTF-8 bytes of a string, the model of Rust `str::as_bytes`. -/
def strBytes (s : String) : ByteStr :=
  (s.data.map utf8Bytes).flatten

/-- The `Chunk` record from `src/chunker.rs`.  The `vector` payload keeps
the 32-bit float bit patterns (`f32` values are never interpreted
arithmetically by the core), and the `distance` f64 is modelled only by
its presence. -/
structure Chunk where
  id : Nat
  vector : Option (List UInt32)
  path : String
  start_line : Nat
  end_line : Nat
  file_hash : Nat
  chunk_hash : Nat
  file_mtime : Nat
  file_ctime : Nat
  content : Option ByteStr
  distance : Option Unit
deriving DecidableEq, Repr

/-- `Chunk::default()` (`#[derive(Default)]` in `src/chunker.rs`). -/
def Chunk.default : Chunk :=
  { id := 0, vector := none, path := "", start_line := 0, end_line := 0,
    file_hash := 0, chunk_hash := 0, file_mtime := 0, file_ctime := 0,
    content := none, distance := none }

/-! ## Synchronizer diff (`tpuf_chunk_diff`, src/sync.rs lines 9–35)

The Rust function collects the two id sets into `HashSet`s and filters
each side by membership in the opposite set; `List.contains` over the
projected id list has exactly the `HashSet::contains` membership
semantics.  The Rust signature returns `Result` but the body is
infallible, so the model returns the pair directly. -/

def tpuf_chunk_diff (localChunks serverChunks : List Chunk) :
    List Chunk × List Chunk :=
  let localChunkIds := localChunks.map (·.id)
  let serverChunkIds := serverChunks.map (·.id)
  let remoteChunksToDelete := serverChunks.filter
    (fun s => !(localChunkIds.contains s.id))
  let localChunksToUpload := localChunks.filter
    (fun c => !(serverChunkIds.contains c.id))
  (localChunksToUpload, remoteChunksToDelete)

lemma mem_diff_upload {localChunks serverChunks : List Chunk} {c : Chunk} :
    c ∈ (tpuf_chunk_diff localChunks serverChunks).1 ↔
      c ∈ localChunks ∧ c.id ∉ serverChunks.map (·.id) := by
  simp [tpuf_chunk_diff]

lemma mem_diff_delete {localChunks serverChunks : List Chunk} {c : Chunk} :
    c ∈ (tpuf_chunk_diff localChunks serverChunks).2 ↔
      c ∈ serverChunks ∧ c.id ∉ localChunks.map (·.id) := by
  simp [tpuf_chunk_diff]

lemma diff_empty_of_id_sets_eq {localChunks serverChunks : List Chunk}
    (hids : ∀ i : Nat, i ∈ localChunks.map (·.id) ↔ i ∈ serverChunks.map (·.id)) :
    (tpuf_chunk_diff localChunks serverChunks).1 = [] ∧
      (tpuf_chunk_diff localChunks serverChunks).2 = [] := by
  constructor
  · rw [List.eq_nil_iff_forall_not_mem]
    intro c hc
    rcases mem_diff_upload.mp hc with ⟨hmem, hnot⟩
    exact hnot ((hids c.id).mp (List.mem_map_of_mem (·.id) hmem))
  · rw [List.eq_nil_iff_forall_not_mem]
    intro c hc
    rcases mem_diff_delete.mp hc with ⟨hmem, hnot⟩
    exact hnot ((hids c.id).mpr (List.mem_map_of_mem (·.id) hmem))

/-- C1: the synchronizer's diff is a pure set difference by `id`:
`to_upload` is exactly the local chunks whose id does not occur among the
remote ids, `to_delete` is exactly the remote chunks whose id does not
occur among the local ids, and when the two id sets are equal both outputs
are empty (so a second pass with no local change is a zero-op diff). -/
theorem C1_diff_is_set_difference_by_id
    (localChunks serverChunks : List Chunk) :
    (∀ c : Chunk, c ∈ (tpuf_chunk_diff localChunks serverChunks).1 ↔
        c ∈ localChunks ∧ c.id ∉ serverChunks.map (·.id)) ∧
    (∀ c : Chunk, c ∈ (tpuf_chunk_diff localChunks serverChunks).2 ↔
        c ∈ serverChunks ∧ c.id ∉ localChunks.map (·.id)) ∧
    ((∀ i : Nat, i ∈ localChunks.map (·.id) ↔ i ∈ serverChunks.map (·.id)) →
      tpuf_chunk_diff localChunks serverChunks = ([], [])) := by
  refine ⟨fun _ => mem_diff_upload, fun _ => mem_diff_delete, fun hids => ?_⟩
  rcases diff_empty_of_id_sets_eq hids with ⟨h1, h2⟩
  calc tpuf_chunk_diff localChunks serverChunks
      = ((tpuf_chunk_diff localChunks serverChunks).1,
         (tpuf_chunk_diff localChunks serverChunks).2) := rfl
    _ = ([], []) := by rw [h1, h2]

/-- Witness for C1: a concrete second-pass scenario — local and remote
hold the same two ids (in different orders, with metadata drift), so the
diff is a zero-op. -/
theorem C1_diff_is_set_difference_by_id_witness :
    tpuf_chunk_diff
      [{ Chunk.default with id := 5, path := "a.rs" },
       { Chunk.default with id := 9, path := "b.rs" }]
      [{ Chunk.default with id := 9, path := "b.rs", file_mtime := 3 },
       { Chunk.default with id := 5, path := "a.rs" }] = ([], []) := by
  exact (C1_diff_is_set_difference_by_id _ _).2.2
    (by intro i; simp [Chunk.default]; tauto)

/-! ## Remote index upload pipeline (`write_chunks`, src/turbopuffer.rs
lines 190–233, and `write_batch`, lines 235–312)

`write_chunks` runs the incoming chunk stream through the futures
`chunks(BATCH_SIZE)` adaptor and issues one `write_batch` HTTP request per
emitted batch, attaching `delete_chunks` to the first batch only.  The
`chunks` adaptor buffers up to `BATCH_SIZE` items and, when the underlying
stream ends, emits the remaining partial vector only if it is non-empty —
so an empty input stream emits no batch at all.  `batchStream` is that
adaptor's semantics on the (finite) list of stream items. -/

def batchStreamGo {α : Type} (n : Nat) : Nat → List α → List (List α)
  | _, [] => []
  | 0, xs => [xs]
  | fuel + 1, x :: xs =>
      (x :: xs.take (n - 1)) :: batchStreamGo n fuel (xs.drop (n - 1))

def batchStream {α : Type} (n : Nat) (l : List α) : List (List α) :=
  batchStreamGo n l.length l

lemma batchStreamGo_nil {α : Type} (n fuel : Nat) :
    batchStreamGo (α := α) n fuel [] = [] := by
  cases fuel <;> rfl

/-- With enough fuel the fuel argument is irrelevant. -/
lemma batchStreamGo_fuel {α : Type} (n : Nat) :
    ∀ fuel (l : List α), l.length ≤ fuel →
      batchStreamGo n fuel l = batchStreamGo n l.length l := by
  intro fuel
  induction fuel using Nat.strong_induction_on with
  | _ fuel ih =>
    intro l hl
    match fuel, l with
    | _, [] => simp [batchStreamGo_nil]
    | 0, x :: xs => exact absurd hl (by simp)
    | f + 1, x :: xs =>
        have hxs : xs.length ≤ f := Nat.succ_le_succ_iff.mp hl
        have hdl : (xs.drop (n - 1)).length ≤ xs.length := by
          rw [List.length_drop]; exact Nat.sub_le _ _
        simp only [batchStreamGo, List.length_cons]
        rw [ih f (Nat.lt_succ_self f) _ (le_trans hdl hxs),
            ih xs.length (Nat.lt_succ_of_le hxs) _ hdl]

lemma batchStream_cons {α : Type} (n : Nat) (x : α) (xs : List α) :
    batchStream n (x :: xs) =
      (x :: xs.take (n - 1)) :: batchStream n (xs.drop (n - 1)) := by
  have hdrop : (xs.drop (n - 1)).length ≤ xs.length := by
    rw [List.length_drop]; exact Nat.sub_le _ _
  simp only [batchStream, List.length_cons, batchStreamGo]
  rw [batchStreamGo_fuel n xs.length _ hdrop]

/-- One request to the remote namespace: the `upsert_rows` payload and the
optional `delete_by_filter` path list (the deduplicated paths of the stale
chunks; the Rust code builds it from a `HashSet`, so only its set of
elements is meaningful). -/
structure WriteRequest where
  upserts : List Chunk
  deleteFilterPaths : Option (List String)
deriving DecidableEq, Repr

/-- The request `write_batch` issues for one batch, if any: with an empty
batch and no deletions it returns early without touching the network, and
it includes the filter only when the delete list is non-empty. -/
def write_batch_request (batch : List Chunk) (deleteChunks : Option (List Chunk)) :
    Option WriteRequest :=
  if batch.isEmpty && (deleteChunks.getD []).isEmpty then none
  else
    some { upserts := batch
           deleteFilterPaths :=
             match deleteChunks with
             | none => none
             | some d => if d.isEmpty then none else some ((d.map (·.path)).dedup) }

/-- The sequence of requests `write_chunks` issues for a stream of chunks:
one per batch emitted by the `chunks(1000)` adaptor, with `delete_chunks`
attached to the first batch only. -/
def write_chunks_requests (chunks : List Chunk) (deleteChunks : Option (List Chunk)) :
    List WriteRequest :=
  ((batchStream 1000 chunks).enum.map
    (fun (i, b) => write_batch_request b (if i = 0 then deleteChunks else none))).reduceOption

/-- The requests issued by `tpuf_apply_diff` (src/sync.rs lines 37–121).
`survivors` is the list of chunks that came out of the embedding stream
(individual embedding failures are logged and dropped there, so it is a
sublist of `toUpload`; the embedder itself is modelled separately). -/
def tpuf_apply_diff_requests (survivors : List Chunk)
    (toUpload toDelete : List Chunk) : List WriteRequest :=
  if toUpload.isEmpty && toDelete.isEmpty then []
  else if !toUpload.isEmpty then
    write_chunks_requests survivors
      (if toDelete.isEmpty then none else some toDelete)
  else if !toDelete.isEmpty then
    write_chunks_requests [] (some toDelete)
  else []

/-- The `changed` boolean `tpuf_apply_diff` reports, given the outcome of
the streaming pipeline (`pipelineOk` = no error from `write_chunks`). -/
def tpuf_apply_diff_result (pipelineOk : Bool) (toUpload toDelete : List Chunk) :
    Except String Bool :=
  if toUpload.isEmpty && toDelete.isEmpty then .ok false
  else if pipelineOk then .ok true else .error "write failed"

/-- C2 (code bug): with `to_upload` empty and `to_delete` non-empty,
`tpuf_apply_diff` hands `write_chunks` an empty stream expecting "the
single deletion-only request" to be issued, but the futures
`chunks(1000)` adaptor emits no batch for an empty stream, so `write_batch`
is never invoked and zero requests are issued — the delete filter is
silently dropped.  Evaluated here at the one-stale-chunk failing input. -/
theorem C2_delete_only_issues_no_request :
    tpuf_apply_diff_requests [] []
      [{ Chunk.default with id := 7, path := "stale.rs" }] = [] ∧
    (tpuf_apply_diff_requests [] []
      [{ Chunk.default with id := 7, path := "stale.rs" }]).length ≠ 1 := by
  constructor <;> decide

/-! ## `tpuf_sync` (src/sync.rs lines 123–155)

`tpuf_sync` joins the local walk+chunk with the remote `all_chunks` fetch,
then diffs and applies.  The outcomes of the two concurrent fetches and of
the apply-stage I/O are oracle arguments.  The decisive line is
`let remote_chunks = remote_chunks_res.unwrap_or_default();` — a failed
remote fetch is replaced by the empty list, while a failed local chunking
propagates via `?`. -/

def tpuf_sync_model (localRes remoteRes : Except String (List Chunk))
    (applyColl : List Chunk → List Chunk → Except String Unit) :
    Except String Bool :=
  match localRes with
  | .error e => .error e
  | .ok localChunks =>
      let remoteChunks := match remoteRes with
        | .ok r => r
        | .error _ => []
      let diff := tpuf_chunk_diff localChunks remoteChunks
      if diff.1.isEmpty && diff.2.isEmpty then .ok false
      else match applyColl diff.1 diff.2 with
        | .ok _ => .ok true
        | .error e => .error e

/-- C7 counterexample: a failure while fetching the full remote chunk set
does NOT propagate — `tpuf_sync` swallows it via `unwrap_or_default()` and
reports success.  Here the remote fetch fails with a connection error and
sync returns `Ok(false)`. -/
theorem C7_remote_fetch_error_swallowed :
    tpuf_sync_model (.ok []) (.error "connection reset by peer")
      (fun _ _ => .ok ()) = .ok false := by
  rfl

/-- C7 amended: inside `tpuf_sync`, a local-chunking failure propagates to
the caller, but a failure while fetching the remote chunk set is locally
recovered by substituting the empty list — the sync then behaves exactly
as if the namespace were empty. -/
theorem C7_sync_error_propagation_amended
    (localRes : Except String (List Chunk)) (e e' : String)
    (applyColl : List Chunk → List Chunk → Except String Unit) :
    tpuf_sync_model (.error e) (.error e') applyColl = .error e ∧
    tpuf_sync_model localRes (.error e') applyColl =
      tpuf_sync_model localRes (.ok []) applyColl := by
  refine ⟨rfl, ?_⟩
  cases localRes <;> rfl

/-! ## Healthy-environment server model and the speculative race
(`speculate_search`, src/search.rs lines 192–294)

The remote namespace is `none` while absent and `some rows` once created
(the first upsert request creates it).  Request semantics follow
src/turbopuffer.rs `write_batch`: `delete_by_filter` removes the rows
whose `path` is in the filter, then `upsert_rows` replaces rows by `id`.
`syncTransition` is one complete `tpuf_sync` run against this server in an
environment where every issued request and every embedding succeeds. -/

abbrev ServerState := Option (List Chunk)

def upsertRows (rows upserts : List Chunk) : List Chunk :=
  rows.filter (fun r => !((upserts.map (·.id)).contains r.id)) ++ upserts

def applyWriteRequest (rows : List Chunk) (req : WriteRequest) : List Chunk :=
  let afterDelete := match req.deleteFilterPaths with
    | none => rows
    | some ps => rows.filter (fun r => !(ps.contains r.path))
  upsertRows afterDelete req.upserts

def applyWriteRequests (srv : ServerState) (reqs : List WriteRequest) :
    ServerState :=
  match reqs with
  | [] => srv
  | _ :: _ => some (reqs.foldl applyWriteRequest (srv.getD []))

/-- One `tpuf_sync` run in the healthy environment: the remote fetch of an
absent namespace errors and is defaulted to `[]`; the reported boolean is
`tpuf_apply_diff`'s `changed`; the server advances by the issued requests
(none are issued for an all-empty diff, and — per `write_chunks` — none
for a deletion-only diff either). -/
def syncTransition (localChunks : List Chunk) (srv : ServerState) :
    Bool × ServerState :=
  let remote := srv.getD []
  let diff := tpuf_chunk_diff localChunks remote
  if diff.1.isEmpty && diff.2.isEmpty then (false, srv)
  else (true, applyWriteRequests srv (tpuf_apply_diff_requests diff.1 diff.1 diff.2))

inductive SearchOut where
  | ok
  | nsNotFound
deriving DecidableEq, Repr

/-- Outcome of one `search` call against the server: querying an absent
namespace yields `NamespaceNotFound`; otherwise the search succeeds. -/
def searchOutcome (srv : ServerState) : SearchOut :=
  match srv with
  | none => .nsNotFound
  | some _ => .ok

/-- Which of the two racing tasks of `tokio::select!` completes first. -/
inductive Winner where
  | searchFirst
  | syncFirst
deriving DecidableEq, Repr

inductive RaceResult where
  /-- The loop returned; `true` = search results, `false` = an error. -/
  | returned (success : Bool)
  /-- The schedule was exhausted with the loop still iterating. -/
  | stillRacing
deriving DecidableEq, Repr

/-- The `speculate_search` race loop, one round per schedule entry.  Per
the source: search finishing first with results returns them (after
holding for sync); search finishing first with `NamespaceNotFound` awaits
sync and, when sync succeeds, re-enters the race; sync finishing first
with `changed = true` aborts the search and re-enters the race; sync
finishing first with `changed = false` awaits the search and returns its
outcome, error included. -/
def speculateRounds (localChunks : List Chunk) :
    List Winner → ServerState → RaceResult
  | [], _ => .stillRacing
  | w :: rest, srv =>
      let step := syncTransition localChunks srv
      match w with
      | .searchFirst =>
          match searchOutcome srv with
          | .ok => .returned true
          | .nsNotFound => speculateRounds localChunks rest step.2
      | .syncFirst =>
          if step.1 then speculateRounds localChunks rest step.2
          else match searchOutcome srv with
            | .ok => .returned true
            | .nsNotFound => .returned false

/-- C6 counterexample: with an empty local tree and an initially absent
namespace, every sync reports "unchanged" without ever creating the
namespace and every search fails with `NamespaceNotFound`, so the race
loop re-enters beyond the single permitted re-race: after the first race
and one full re-race it is still racing. -/
theorem C6_race_can_exceed_one_reentry :
    speculateRounds [] [.searchFirst, .searchFirst] none = .stillRacing := by
  decide

/-- C6 amended: the "at most one re-race, then return" guarantee holds
exactly under the convergence the spec presupposes — after the first
completed sync the namespace exists (searches stop failing with
`NamespaceNotFound`) and a repeat sync reports no change.  Under those two
facts every schedule returns within two rounds. -/
theorem C6_one_reentry_under_convergence
    (localChunks : List Chunk) (srv : ServerState)
    (hok : searchOutcome (syncTransition localChunks srv).2 = .ok)
    (hconv : (syncTransition localChunks (syncTransition localChunks srv).2).1 = false)
    (w₁ w₂ : Winner) (rest : List Winner) :
    ∃ b : Bool, speculateRounds localChunks (w₁ :: w₂ :: rest) srv = .returned b := by
  have round2 : ∀ r : List Winner,
      speculateRounds localChunks
        (w₂ :: r) (syncTransition localChunks srv).2 = .returned true := by
    intro r
    cases w₂ <;> simp [speculateRounds, hok, hconv]
  cases w₁ <;> simp only [speculateRounds]
  · cases hsrv : searchOutcome srv
    · exact ⟨true, rfl⟩
    · exact ⟨true, round2 rest⟩
  · by_cases hch : (syncTransition localChunks srv).1
    · rw [if_pos hch]; exact ⟨true, round2 rest⟩
    · rw [if_neg hch]
      cases hsrv : searchOutcome srv
      · exact ⟨true, rfl⟩
      · exact ⟨false, rfl⟩

/-- Witness for the amended C6: one local chunk, namespace initially
absent.  The first sync uploads it (creating the namespace), a repeat sync
is a no-op, and every schedule returns within two rounds. -/
theorem C6_one_reentry_under_convergence_witness :
    ∃ b : Bool, speculateRounds [{ Chunk.default with id := 3, path := "a.rs" }]
      [.syncFirst, .searchFirst] none = .returned b :=
  C6_one_reentry_under_convergence
    [{ Chunk.default with id := 3, path := "a.rs" }] none
    (by decide) (by decide) .syncFirst .searchFirst []

/-! ## Project resolver namespace (`namespace_and_dir`, src/project.rs
lines 105–123)

The namespace string is built by `format!("tg_{}_{:x}", provider, hash)`.
Rust's `{:x}` renders the minimal lowercase hex digits of the value with
no leading zeros (`"0"` for zero) — it is NOT zero-padded to 16 digits.
`hexCharsAux` computes the hex digits least-significant-first with a fuel
argument (fuel ≥ n suffices). -/

def hexCharsAux : Nat → Nat → List Char
  | _, 0 => []
  | 0, _ + 1 => []
  | fuel + 1, n + 1 => Nat.digitChar ((n + 1) % 16) :: hexCharsAux fuel ((n + 1) / 16)

/-- Rust `{:x}` (LowerHex) formatting of an unsigned integer. -/
def rustLowerHex (n : Nat) : String :=
  if n = 0 then "0" else String.mk (hexCharsAux n n).reverse

def namespaceOf (provider : String) (hash : Nat) : String :=
  "tg_" ++ provider ++ "_" ++ rustLowerHex hash

/-- Modelled from the spec: the claimed `hex16` rendering — the
16-hexadecimal-digit (zero-padded) encoding of a 64-bit value.  Stated
only to be compared with the source's `rustLowerHex`. -/
def specHex16 (n : Nat) : String :=
  String.mk (((List.range 16).reverse).map (fun i => Nat.digitChar (n / 16 ^ i % 16)))

lemma hexCharsAux_zero (fuel : Nat) : hexCharsAux fuel 0 = [] := by
  cases fuel <;> rfl

lemma hexCharsAux_fuel :
    ∀ fuel n, n ≤ fuel → hexCharsAux fuel n = hexCharsAux n n := by
  intro fuel
  induction fuel using Nat.strong_induction_on with
  | _ fuel ih =>
    intro n hn
    match fuel, n with
    | f, 0 => rw [hexCharsAux_zero, hexCharsAux_zero]
    | 0, n + 1 => exact absurd hn (by simp)
    | f + 1, n + 1 =>
        have hdiv : (n + 1) / 16 < n + 1 := Nat.div_lt_self (Nat.succ_pos n) (by norm_num)
        have h1 : (n + 1) / 16 ≤ f := Nat.lt_succ_iff.mp (lt_of_lt_of_le hdiv hn)
        have h2 : (n + 1) / 16 ≤ n := Nat.lt_succ_iff.mp hdiv
        have hnf : n < f + 1 := Nat.lt_succ_of_le (Nat.succ_le_succ_iff.mp hn)
        simp only [hexCharsAux]
        rw [ih f (Nat.lt_succ_self f) _ h1, ← ih n hnf _ h2]

lemma hexCharsAux_length_le :
    ∀ k fuel n, n ≤ fuel → n < 16 ^ k → (hexCharsAux fuel n).length ≤ k := by
  intro k
  induction k with
  | zero =>
      intro fuel n _ hlt
      have : n = 0 := by omega
      simp [this, hexCharsAux_zero]
  | succ k ih =>
      intro fuel n hfuel hlt
      match fuel, n with
      | f, 0 => simp [hexCharsAux_zero]
      | 0, n + 1 => exact absurd hfuel (by simp)
      | f + 1, n + 1 =>
          have hdiv : (n + 1) / 16 < n + 1 :=
            Nat.div_lt_self (Nat.succ_pos n) (by norm_num)
          have h1 : (n + 1) / 16 ≤ f := Nat.lt_succ_iff.mp (lt_of_lt_of_le hdiv hfuel)
          have h2 : (n + 1) / 16 < 16 ^ k := by
            rw [Nat.div_lt_iff_lt_mul (by norm_num : 0 < 16)]
            calc n + 1 < 16 ^ (k + 1) := hlt
              _ = 16 ^ k * 16 := by ring
          simpa [hexCharsAux] using ih f ((n + 1) / 16) h1 h2

lemma hexCharsAux_length_gt :
    ∀ k fuel n, n ≤ fuel → 16 ^ k ≤ n → k < (hexCharsAux fuel n).length := by
  intro k
  induction k with
  | zero =>
      intro fuel n hfuel hge
      match fuel, n with
      | f, 0 => exact absurd hge (by simp)
      | 0, n + 1 => exact absurd hfuel (by simp)
      | f + 1, n + 1 => simp [hexCharsAux]
  | succ k ih =>
      intro fuel n hfuel hge
      match fuel, n with
      | f, 0 =>
          have : (0 : Nat) < 16 ^ (k + 1) := pow_pos (by norm_num) _
          omega
      | 0, n + 1 => exact absurd hfuel (by simp)
      | f + 1, n + 1 =>
          have hdiv : (n + 1) / 16 < n + 1 :=
            Nat.div_lt_self (Nat.succ_pos n) (by norm_num)
          have h1 : (n + 1) / 16 ≤ f := Nat.lt_succ_iff.mp (lt_of_lt_of_le hdiv hfuel)
          have h2 : 16 ^ k ≤ (n + 1) / 16 := by
            rw [Nat.le_div_iff_mul_le (by norm_num : 0 < 16)]
            calc 16 ^ k * 16 = 16 ^ (k + 1) := by ring
              _ ≤ n + 1 := hge
          simpa [hexCharsAux, Nat.succ_lt_succ_iff] using ih f ((n + 1) / 16) h1 h2

lemma rustLowerHex_length (n : Nat) (h0 : n ≠ 0) :
    (rustLowerHex n).length = (hexCharsAux n n).length := by
  rw [rustLowerHex, if_neg h0]
  exact List.length_reverse _

/-- C8 counterexample: the resolved namespace does not have the form
`tg_{provider}_{hex16}` for every hash value — at hash 1 the suffix is the
single digit `"1"`, not a 16-digit encoding, because `{:x}` does not
zero-pad. -/
theorem C8_namespace_suffix_not_hex16 :
    namespaceOf "voyage" 1 ≠ "tg_voyage_" ++ specHex16 1 ∧
    namespaceOf "voyage" 1 = "tg_voyage_1" := by
  constructor <;> decide

/-- C8 amended: the namespace is `"tg_" ++ provider ++ "_" ++ s` where
`s` is the minimal lowercase-hex rendering of the 64-bit hash with no
leading zeros: between 1 and 16 digits, with exactly 16 digits when (and
only when) the hash is at least `2^60`. -/
theorem C8_namespace_minimal_hex
    (provider : String) (hash : Nat) (hh : hash < 2 ^ 64) :
    namespaceOf provider hash = "tg_" ++ provider ++ "_" ++ rustLowerHex hash ∧
    1 ≤ (rustLowerHex hash).length ∧
    (rustLowerHex hash).length ≤ 16 ∧
    ((rustLowerHex hash).length = 16 ↔ 2 ^ 60 ≤ hash) := by
  have h6416 : (2 : Nat) ^ 64 = 16 ^ 16 := by norm_num
  have h6015 : (2 : Nat) ^ 60 = 16 ^ 15 := by norm_num
  refine ⟨rfl, ?_, ?_, ?_⟩
  · by_cases h0 : hash = 0
    · rw [h0]; decide
    · have hpos : 16 ^ 0 ≤ hash := by simpa using Nat.pos_of_ne_zero h0
      have hgt := hexCharsAux_length_gt 0 hash hash le_rfl hpos
      rw [rustLowerHex_length hash h0]
      omega
  · by_cases h0 : hash = 0
    · rw [h0]; decide
    · have hle := hexCharsAux_length_le 16 hash hash le_rfl (h6416 ▸ hh)
      rw [rustLowerHex_length hash h0]
      omega
  · constructor
    · intro hlen
      by_contra hlt
      push_neg at hlt
      rw [h6015] at hlt
      by_cases h0 : hash = 0
      · rw [h0] at hlen; exact absurd hlen (by decide)
      · have hle := hexCharsAux_length_le 15 hash hash le_rfl hlt
        rw [rustLowerHex_length hash h0] at hlen
        omega
    · intro hge
      rw [h6015] at hge
      have h0 : hash ≠ 0 := by
        intro h; rw [h] at hge; exact absurd hge (by norm_num)
      have hgt := hexCharsAux_length_gt 15 hash hash le_rfl hge
      have hle := hexCharsAux_length_le 16 hash hash le_rfl (h6416 ▸ hh)
      rw [rustLowerHex_length hash h0]
      omega

/-- Witness for the amended C8: a hash with a leading-zero nibble renders
as 15 digits; a hash at `2^60` renders as 16. -/
theorem C8_namespace_minimal_hex_witness :
    (2 : Nat) ^ 63 - 2 ^ 59 < 2 ^ 64 ∧
    ((rustLowerHex (2 ^ 63 - 2 ^ 59)).length = 16 ↔ 2 ^ 60 ≤ 2 ^ 63 - 2 ^ 59) :=
  ⟨by norm_num, (C8_namespace_minimal_hex "voyage" (2 ^ 63 - 2 ^ 59) (by norm_num)).2.2.2⟩

/-! ## Search orchestrator (`search`, src/search.rs lines 91–125)

`search` resolves `(namespace, root_dir)` first (a failure becomes
`NamespaceError`), then rejects queries whose `trim()` is empty with
`EmptyQuery`, and only then embeds the query / hits the remote index.
`isRustWhitespace` is Rust's `char::is_whitespace` (the Unicode
`White_Space` property), and `rustTrim` is `str::trim`. -/

def isRustWhitespace (c : Char) : Bool :=
  (0x9 ≤ c.val && c.val ≤ 0xD) || c.val = 0x20 || c.val = 0x85 || c.val = 0xA0 ||
  c.val = 0x1680 || (0x2000 ≤ c.val && c.val ≤ 0x200A) ||
  c.val = 0x2028 || c.val = 0x2029 || c.val = 0x202F || c.val = 0x205F ||
  c.val = 0x3000

def rustTrim (l : List Char) : List Char :=
  ((l.dropWhile isRustWhitespace).reverse.dropWhile isRustWhitespace).reverse

lemma all_of_dropWhile_all {p : Char → Bool} :
    ∀ l : List Char, (∀ x ∈ l.dropWhile p, p x) → ∀ x ∈ l, p x := by
  intro l
  induction l with
  | nil => simp
  | cons a t ih =>
      intro h x hx
      by_cases hpa : p a
      · rw [List.dropWhile_cons_of_pos hpa] at h
        rcases List.mem_cons.mp hx with hx | hx
        · exact hx ▸ hpa
        · exact ih h x hx
      · rw [List.dropWhile_cons_of_neg hpa] at h
        exact h x hx

lemma rustTrim_eq_nil_iff (l : List Char) :
    rustTrim l = [] ↔ ∀ x ∈ l, isRustWhitespace x := by
  rw [rustTrim, List.reverse_eq_nil_iff, List.dropWhile_eq_nil_iff]
  constructor
  · intro h
    exact all_of_dropWhile_all l (fun x hx => h x (List.mem_reverse.mpr hx))
  · intro h x hx
    have hnil : l.dropWhile isRustWhitespace = [] :=
      List.dropWhile_eq_nil_iff.mpr h
    rw [hnil] at hx
    simp at hx

inductive SearchErrM where
  | emptyQuery
  | noEmbedding
  | namespaceErr (msg : String)
  | embeddingErr (msg : String)
  | turbopufferErr (msg : String)
deriving DecidableEq, Repr

/-- Outcome of the one remote-index query a search issues. -/
inductive TpufOutcome where
  | rows (rs : List Chunk)
  | err (msg : String)
deriving DecidableEq, Repr

/-- The calls `search` makes to external services. -/
inductive RemoteCall where
  | embedCall
  | tpufQueryCall
deriving DecidableEq, Repr

/-- `search` up to hydration (hydration reads only the local disk and
makes no further remote calls): result plus the trace of remote calls.
`embedRes` is the outcome of embedding the query chunk (`Ok none` models a
response with no vector → `NoEmbedding`), `queryRes` the outcome of the
index query. -/
def searchModel (resolveRes : Except String (String × String)) (query : String)
    (rgx : Bool) (embedRes : Except String (Option (List UInt32)))
    (queryRes : TpufOutcome) :
    Except SearchErrM (List Chunk) × List RemoteCall :=
  match resolveRes with
  | .error e => (.error (.namespaceErr e), [])
  | .ok _ =>
      if rustTrim query.data = [] then (.error .emptyQuery, [])
      else if rgx then
        match queryRes with
        | .rows rs => (.ok rs, [.tpufQueryCall])
        | .err m => (.error (.turbopufferErr m), [.tpufQueryCall])
      else
        match embedRes with
        | .error m => (.error (.embeddingErr m), [.embedCall])
        | .ok none => (.error .noEmbedding, [.embedCall])
        | .ok (some _) =>
            match queryRes with
            | .rows rs => (.ok rs, [.embedCall, .tpufQueryCall])
            | .err m => (.error (.turbopufferErr m), [.embedCall, .tpufQueryCall])

/-- C9: with namespace resolution succeeding, `search` returns
`EmptyQuery` exactly when the query is empty or all-whitespace, and in
that case makes no embedding and no remote-index call; a resolution
failure preempts the empty-query check. -/
theorem C9_empty_query_rejection (rootPair : String × String) (query : String)
    (rgx : Bool) (embedRes : Except String (Option (List UInt32)))
    (queryRes : TpufOutcome) :
    ((searchModel (.ok rootPair) query rgx embedRes queryRes).1 =
        .error .emptyQuery ↔ ∀ c ∈ query.data, isRustWhitespace c) ∧
    ((∀ c ∈ query.data, isRustWhitespace c) →
      (searchModel (.ok rootPair) query rgx embedRes queryRes).2 = []) ∧
    (∀ e : String, searchModel (.error e) query rgx embedRes queryRes =
      (.error (.namespaceErr e), [])) := by
  refine ⟨?_, ?_, fun _ => rfl⟩
  · constructor
    · intro hres
      by_contra hws
      rw [← rustTrim_eq_nil_iff] at hws
      simp only [searchModel, if_neg hws] at hres
      by_cases hr : rgx <;> simp only [hr, if_true, if_false, Bool.false_eq_true] at hres
      · cases queryRes <;> simp_all
      · cases embedRes with
        | error m => simp_all
        | ok v => cases v with
          | none => simp_all
          | some _ => cases queryRes <;> simp_all
    · intro hws
      rw [← rustTrim_eq_nil_iff] at hws
      simp [searchModel, hws]
  · intro hws
    rw [← rustTrim_eq_nil_iff] at hws
    simp [searchModel, hws]

/-- Witness for C9: the whitespace-only query `" \t\n "` is rejected with
`EmptyQuery` and no remote call is made. -/
theorem C9_empty_query_rejection_witness :
    (searchModel (.ok ("tg_voyage_1", "/repo")) " \t\n " false (.ok none)
        (.rows [])).1 = .error .emptyQuery ∧
    (searchModel (.ok ("tg_voyage_1", "/repo")) " \t\n " false (.ok none)
        (.rows [])).2 = [] := by
  have h := C9_empty_query_rejection ("tg_voyage_1", "/repo") " \t\n " false
    (.ok none) (.rows [])
  exact ⟨h.1.mpr (by decide), h.2.1 (by decide)⟩

/-! ## Search-result hydration (`load_chunk_content`, src/search.rs
lines 29–49)

The function re-reads `[start_line, end_line]` from disk:
`.skip((start_line - 1) as usize).take((end_line - start_line + 1) as usize)`,
all on `u32`.  Rust integer arithmetic outside the type's range is a
defect (panic in debug builds); the checked operations surface it as
`none`, so the outer `Option` is the no-arithmetic-fault guarantee.  A
missing file and an empty line range both leave the chunk's content
unchanged. -/

def u32SubChecked (a b : Nat) : Option Nat :=
  if b ≤ a then some (a - b) else none

def u32AddChecked (a b : Nat) : Option Nat :=
  if a + b < 2 ^ 32 then some (a + b) else none

def joinLines (lines : List ByteStr) : ByteStr :=
  (List.intersperse [10] lines).flatten

def load_chunk_content (fileExistsB : Bool) (fileLines : List ByteStr)
    (c : Chunk) : Option (Option ByteStr) :=
  if !fileExistsB then some c.content
  else
    match u32SubChecked c.start_line 1 with
    | none => none
    | some skipCount =>
        match u32SubChecked c.end_line c.start_line with
        | none => none
        | some d =>
            match u32AddChecked d 1 with
            | none => none
            | some takeCount =>
                let lines := (fileLines.drop skipCount).take takeCount
                if lines.isEmpty then some c.content
                else some (some (joinLines lines))

/-- C10: under the §3 line invariant (`1 ≤ start_line ≤ end_line`, values
in `u32` range) the two subtractions and the addition in hydration cannot
leave `u32`, and hydration is total — returning the content unchanged
(`None` for index records) when the file is missing or the line range
yields no lines.  A record with `start_line = 0` (the type's default)
makes `start_line - 1` underflow, so the invariant is a genuine
precondition. -/
theorem C10_hydration_total_under_line_invariant :
    (∀ (c : Chunk) (ex : Bool) (fileLines : List ByteStr),
        1 ≤ c.start_line → c.start_line ≤ c.end_line → c.end_line < 2 ^ 32 →
        (load_chunk_content ex fileLines c).isSome) ∧
    (∀ (c : Chunk) (fileLines : List ByteStr),
        load_chunk_content false fileLines c = some c.content) ∧
    (∀ (c : Chunk) (fileLines : List ByteStr),
        1 ≤ c.start_line → c.start_line ≤ c.end_line → c.end_line < 2 ^ 32 →
        ((fileLines.drop (c.start_line - 1)).take
          (c.end_line - c.start_line + 1)).isEmpty →
        load_chunk_content true fileLines c = some c.content) ∧
    (∀ (c : Chunk) (fileLines : List ByteStr), c.start_line = 0 →
        load_chunk_content true fileLines c = none) := by
  refine ⟨?_, fun c fileLines => rfl, ?_, ?_⟩
  · intro c ex fileLines h1 h2 h3
    cases ex with
    | false => simp [load_chunk_content]
    | true =>
        have hadd : c.end_line - c.start_line + 1 < 2 ^ 32 := by omega
        simp only [load_chunk_content, u32SubChecked, u32AddChecked,
          if_pos h1, if_pos h2, if_pos hadd, Bool.not_true, Bool.false_eq_true,
          if_false]
        split <;> simp
  · intro c fileLines h1 h2 h3 hempty
    have hadd : c.end_line - c.start_line + 1 < 2 ^ 32 := by omega
    simp only [load_chunk_content, u32SubChecked, u32AddChecked,
      if_pos h1, if_pos h2, if_pos hadd, Bool.not_true, Bool.false_eq_true,
      if_false]
    rw [if_pos hempty]
  · intro c fileLines h0
    simp [load_chunk_content, u32SubChecked, h0]

/-- Witness for C10: a one-line chunk of a one-line file hydrates to that
line; the same chunk against a vanished file keeps `content = none`. -/
theorem C10_hydration_total_under_line_invariant_witness :
    (load_chunk_content true [[102, 110]]
      { Chunk.default with start_line := 1, end_line := 1 }).isSome ∧
    load_chunk_content false []
      { Chunk.default with start_line := 1, end_line := 1 } = some none ∧
    load_chunk_content true [] Chunk.default = none := by
  refine ⟨?_, ?_, ?_⟩
  · exact C10_hydration_total_under_line_invariant.1
      { Chunk.default with start_line := 1, end_line := 1 } true [[102, 110]]
      (by decide) (by decide) (by decide)
  · exact C10_hydration_total_under_line_invariant.2.1
      { Chunk.default with start_line := 1, end_line := 1 } []
  · exact C10_hydration_total_under_line_invariant.2.2.2 Chunk.default []
      (by decide)

/-! ## Embedder (`embed_batch_impl`, src/embeddings.rs lines 217–321)

One embed call posts the chunk texts and either succeeds (per-text base64
payloads plus optional `usage.total_tokens`) or fails with an HTTP error
body.  On failure, when the lowercased body contains
`"max allowed tokens per submitted batch"` and the batch has more than one
chunk, the batch is split at `len / 2` and both halves are embedded
recursively (left first; a left error short-circuits); otherwise the error
propagates as `ApiError`.  The provider response and the external
base64+f32 vector decoding are oracle arguments. -/

structure EmbedResultM where
  chunks : List Chunk
  total_tokens : Option Nat
deriving DecidableEq, Repr

inductive EmbedErrM where
  | missingApiKey
  | requestFailed (msg : String)
  | apiError (msg : String)
deriving DecidableEq, Repr

inductive ApiOutcome where
  | success (data : List String) (totalTokens : Option Nat)
  | httpError (body : String)
deriving DecidableEq, Repr

/-- `chunks.iter().map(|c| c.content.expect(..))` — the texts sent to the
provider (the source panics on a chunk with no content; the pipeline only
ever passes chunks that carry content). -/
def chunkTexts (chunks : List Chunk) : List ByteStr :=
  chunks.map (fun c => c.content.getD [])

def listPrefixB : List Char → List Char → Bool
  | [], _ => true
  | _ :: _, [] => false
  | a :: as, b :: bs => a == b && listPrefixB as bs

def listContainsSeq : List Char → List Char → Bool
  | [], needle => needle.isEmpty
  | h :: t, needle => listPrefixB needle (h :: t) || listContainsSeq t needle

/-- Rust `error_text.to_lowercase().contains(..)`: per-character
lowercasing (the needle is pure ASCII, where Rust's Unicode lowercasing
and per-char ASCII lowercasing agree) followed by substring search. -/
def isTokenLimitError (body : String) : Bool :=
  listContainsSeq (body.data.map Char.toLower)
    "max allowed tokens per submitted batch".data

/-- Attach decoded vectors to a batch: `chunks.into_iter().zip(resp.data)`
(so extra payloads are ignored and extra chunks are dropped by `zip`); an
individual decode failure keeps the chunk without a vector. -/
def attachEmbeddings (decode : String → Option (List UInt32))
    (chunks : List Chunk) (data : List String) : List Chunk :=
  (chunks.zip data).map (fun p =>
    match decode p.2 with
    | some v => { p.1 with vector := some v }
    | none => p.1)

def combineTokens : Option Nat → Option Nat → Option Nat
  | some a, some b => some (a + b)
  | some a, none => some a
  | none, some b => some b
  | none, none => none

def embed_batch_impl (api : List ByteStr → ApiOutcome)
    (decode : String → Option (List UInt32)) (chunks : List Chunk) :
    Except EmbedErrM EmbedResultM :=
  match api (chunkTexts chunks) with
  | .success data usage => .ok ⟨attachEmbeddings decode chunks data, usage⟩
  | .httpError body =>
      if _h : isTokenLimitError body ∧ 1 < chunks.length then
        match embed_batch_impl api decode (chunks.take (chunks.length / 2)) with
        | .error e => .error e
        | .ok leftResult =>
            match embed_batch_impl api decode (chunks.drop (chunks.length / 2)) with
            | .error e => .error e
            | .ok rightResult =>
                .ok ⟨leftResult.chunks ++ rightResult.chunks,
                     combineTokens leftResult.total_tokens rightResult.total_tokens⟩
      else .error (.apiError body)
termination_by chunks.length
decreasing_by
  · rw [List.length_take]; omega
  · rw [List.length_drop]; omega

/-- Erase the vector: the "modulo vector bit-identity" projection. -/
def stripVector (c : Chunk) : Chunk :=
  { c with vector := none }

lemma embed_batch_impl_success (api : List ByteStr → ApiOutcome)
    (decode : String → Option (List UInt32)) (chunks : List Chunk)
    (data : List String) (usage : Option Nat)
    (happi : api (chunkTexts chunks) = .success data usage) :
    embed_batch_impl api decode chunks =
      .ok ⟨attachEmbeddings decode chunks data, usage⟩ := by
  rw [embed_batch_impl, happi]

lemma embed_batch_impl_httpError (api : List ByteStr → ApiOutcome)
    (decode : String → Option (List UInt32)) (chunks : List Chunk)
    (body : String)
    (happi : api (chunkTexts chunks) = .httpError body) :
    embed_batch_impl api decode chunks =
      if _h : isTokenLimitError body ∧ 1 < chunks.length then
        match embed_batch_impl api decode (chunks.take (chunks.length / 2)) with
        | .error e => .error e
        | .ok leftResult =>
            match embed_batch_impl api decode
                (chunks.drop (chunks.length / 2)) with
            | .error e => .error e
            | .ok rightResult =>
                .ok ⟨leftResult.chunks ++ rightResult.chunks,
                     combineTokens leftResult.total_tokens rightResult.total_tokens⟩
      else .error (.apiError body) := by
  rw [embed_batch_impl, happi]

lemma attachEmbeddings_strip (decode : String → Option (List UInt32)) :
    ∀ (chunks : List Chunk) (data : List String),
      data.length = chunks.length →
      (attachEmbeddings decode chunks data).map stripVector =
        chunks.map stripVector := by
  intro chunks
  induction chunks with
  | nil => intro data _; simp [attachEmbeddings]
  | cons c t ih =>
      intro data hlen
      match data with
      | [] => simp at hlen
      | d :: ds =>
          have hlen' : ds.length = t.length := by simpa using hlen
          have hhead : stripVector (match decode d with
              | some v => { c with vector := some v }
              | none => c) = stripVector c := by
            cases decode d <;> rfl
          simp only [attachEmbeddings, List.zip_cons_cons, List.map_cons]
          rw [hhead]
          exact congrArg _ (by simpa [attachEmbeddings] using ih ds hlen')

lemma embed_batch_impl_strip_aux (api : List ByteStr → ApiOutcome)
    (decode : String → Option (List UInt32))
    (hfull : ∀ ts data usage, api ts = .success data usage →
      data.length = ts.length) :
    ∀ (n : Nat) (chunks : List Chunk), chunks.length ≤ n →
      ∀ r, embed_batch_impl api decode chunks = .ok r →
        r.chunks.map stripVector = chunks.map stripVector := by
  intro n
  induction n using Nat.strong_induction_on with
  | _ n ih =>
    intro chunks hn r hr
    cases happi : api (chunkTexts chunks) with
    | success data usage =>
        rw [embed_batch_impl_success api decode chunks data usage happi] at hr
        cases hr
        have hlen : data.length = chunks.length := by
          simpa [chunkTexts] using hfull _ _ _ happi
        exact attachEmbeddings_strip decode chunks data hlen
    | httpError body =>
        rw [embed_batch_impl_httpError api decode chunks body happi] at hr
        by_cases hcond : isTokenLimitError body ∧ 1 < chunks.length
        · rw [dif_pos hcond] at hr
          have h2 := hcond.2
          cases hleft : embed_batch_impl api decode
              (chunks.take (chunks.length / 2)) with
          | error e => rw [hleft] at hr; exact absurd hr (by simp)
          | ok leftResult =>
              cases hright : embed_batch_impl api decode
                  (chunks.drop (chunks.length / 2)) with
              | error e =>
                  rw [hleft, hright] at hr
                  exact absurd hr (by simp)
              | ok rightResult =>
                  rw [hleft, hright] at hr
                  simp only [Except.ok.injEq] at hr
                  subst hr
                  have htake := ih (chunks.length / 2) (by omega)
                    (chunks.take (chunks.length / 2))
                    (by rw [List.length_take]; omega) leftResult hleft
                  have hdrop := ih (chunks.length - chunks.length / 2) (by omega)
                    (chunks.drop (chunks.length / 2))
                    (by rw [List.length_drop]) rightResult hright
                  calc (leftResult.chunks ++ rightResult.chunks).map stripVector
                      = leftResult.chunks.map stripVector ++
                          rightResult.chunks.map stripVector := by
                        rw [List.map_append]
                    _ = (chunks.take (chunks.length / 2)).map stripVector ++
                          (chunks.drop (chunks.length / 2)).map stripVector := by
                        rw [htake, hdrop]
                    _ = chunks.map stripVector := by
                        rw [← List.map_append, List.take_append_drop]
        · rw [dif_neg hcond] at hr
          exact absurd hr (by simp)

/-- C4: adaptive batch splitting.  (i) On the token-limit error with more
than one chunk, the batch is split at `len / 2`, the halves are embedded
independently (left first, a left error short-circuiting), and a doubly
successful split returns left-then-right concatenation with the halves'
token counts combined.  (ii) Every successful run — whether it split or
answered in one call — returns, modulo vector bit-identity, exactly the
input chunks in their original order; hence a split run agrees with what a
single successful whole-batch call would return.  (iii) A non-token-limit
error, or the token-limit error on a batch of at most one chunk,
propagates as `ApiError` without retry. -/
theorem C4_adaptive_split (api : List ByteStr → ApiOutcome)
    (decode : String → Option (List UInt32)) (chunks : List Chunk) :
    (∀ body, api (chunkTexts chunks) = .httpError body →
      isTokenLimitError body = true → 1 < chunks.length →
      (∀ leftResult rightResult,
        embed_batch_impl api decode (chunks.take (chunks.length / 2)) =
          .ok leftResult →
        embed_batch_impl api decode (chunks.drop (chunks.length / 2)) =
          .ok rightResult →
        embed_batch_impl api decode chunks =
          .ok ⟨leftResult.chunks ++ rightResult.chunks,
               combineTokens leftResult.total_tokens rightResult.total_tokens⟩) ∧
      (∀ e, embed_batch_impl api decode (chunks.take (chunks.length / 2)) =
          .error e →
        embed_batch_impl api decode chunks = .error e) ∧
      (∀ leftResult e,
        embed_batch_impl api decode (chunks.take (chunks.length / 2)) =
          .ok leftResult →
        embed_batch_impl api decode (chunks.drop (chunks.length / 2)) =
          .error e →
        embed_batch_impl api decode chunks = .error e)) ∧
    ((∀ ts data usage, api ts = .success data usage →
        data.length = ts.length) →
      ∀ r, embed_batch_impl api decode chunks = .ok r →
        r.chunks.map stripVector = chunks.map stripVector) ∧
    (∀ body, api (chunkTexts chunks) = .httpError body →
      (isTokenLimitError body = false ∨ chunks.length ≤ 1) →
      embed_batch_impl api decode chunks = .error (.apiError body)) := by
  refine ⟨fun body happi htok hlen => ?_, fun hfull r hr => ?_,
    fun body happi hno => ?_⟩
  · have hcond : isTokenLimitError body ∧ 1 < chunks.length := ⟨htok, hlen⟩
    refine ⟨fun leftResult rightResult hl hrr => ?_, fun e hl => ?_,
      fun leftResult e hl hrr => ?_⟩ <;>
      rw [embed_batch_impl_httpError api decode chunks body happi,
          dif_pos hcond, hl] <;> try rw [hrr]
  · exact embed_batch_impl_strip_aux api decode hfull chunks.length chunks
      le_rfl r hr
  · have hcond : ¬(isTokenLimitError body ∧ 1 < chunks.length) := by
      rcases hno with hno | hno
      · intro hc; rw [hc.1] at hno; exact Bool.noConfusion hno
      · intro hc; omega
    rw [embed_batch_impl_httpError api decode chunks body happi, dif_neg hcond]

/-- A concrete provider for the C4 witness: batches of two or more texts
hit the token limit; singleton batches succeed with payload `"Qg=="` and
3 tokens. -/
def apiSplitW : List ByteStr → ApiOutcome :=
  fun ts =>
    if 2 ≤ ts.length then .httpError "Max allowed tokens per submitted batch"
    else .success (ts.map (fun _ => "Qg==")) (some 3)

def chunkWa : Chunk := { Chunk.default with id := 1, content := some [97] }

def chunkWb : Chunk := { Chunk.default with id := 2, content := some [98] }

def chunkWa' : Chunk := { chunkWa with vector := some [66] }

def chunkWb' : Chunk := { chunkWb with vector := some [66] }

/-- Witness for C4: a two-chunk batch hits the token limit, splits into
singletons, each succeeds with 3 tokens, and the recombined result lists
left then right with 6 tokens; stripped of vectors it equals the input. -/
theorem C4_adaptive_split_witness :
    (embed_batch_impl apiSplitW (fun _ => some [66]) [chunkWa, chunkWb] =
      .ok { chunks := [chunkWa', chunkWb'], total_tokens := some 6 }) ∧
    ([chunkWa', chunkWb'].map stripVector =
      [chunkWa, chunkWb].map stripVector) := by
  have hmain := C4_adaptive_split apiSplitW (fun _ => some [66])
    [chunkWa, chunkWb]
  have h1 : embed_batch_impl apiSplitW (fun _ => some [66])
      ([chunkWa, chunkWb].take 1) =
      .ok { chunks := [chunkWa'], total_tokens := some 3 } :=
    embed_batch_impl_success apiSplitW (fun _ => some [66])
      ([chunkWa, chunkWb].take 1) ["Qg=="] (some 3) rfl
  have h2 : embed_batch_impl apiSplitW (fun _ => some [66])
      ([chunkWa, chunkWb].drop 1) =
      .ok { chunks := [chunkWb'], total_tokens := some 3 } :=
    embed_batch_impl_success apiSplitW (fun _ => some [66])
      ([chunkWa, chunkWb].drop 1) ["Qg=="] (some 3) rfl
  have hsplit := (hmain.1 "Max allowed tokens per submitted batch"
    (by decide) (by decide) (by decide)).1
    { chunks := [chunkWa'], total_tokens := some 3 }
    { chunks := [chunkWb'], total_tokens := some 3 } h1 h2
  refine ⟨hsplit, ?_⟩
  have hfull : ∀ ts data usage, apiSplitW ts = .success data usage →
      data.length = ts.length := by
    intro ts data usage h
    rw [apiSplitW] at h
    split at h
    · exact absurd h (by simp)
    · cases h; simp
  exact hmain.2.1 hfull _ hsplit

/-! ## Chunker (`chunk`, src/chunker.rs lines 351–466, and the extraction
helpers at lines 18–92 and 95–165)

The external tree-sitter parse is passed in as data: each query capture
carries its node, the ordered child list of the node's parent (the sibling
sequence scanned for leading comments), and — for markdown — the ancestor
chain (innermost first), each ancestor paired with its ordered children.
Parsing is a pure function of the file content, so identical content
yields identical captures.  The external xxhash is the argument `h`. -/

structure TSNode where
  ident : Nat
  kind : String
  startByte : Nat
  endByte : Nat
  startRow : Nat
  endRow : Nat
deriving DecidableEq, Repr

def isCommentKind (k : String) : Bool :=
  k == "comment" || k == "line_comment" || k == "block_comment" ||
  k == "doc_comment" || k == "documentation_comment"

/-- The reverse scan over the siblings preceding the function
(src/chunker.rs lines 49–85), carried state = (`found_comment_near_function`,
`last_comment_line`, `comment_start_byte`); returns the final
`comment_start_byte`. -/
def commentScan (fnStartRow : Nat) :
    List TSNode → Bool → Nat → Nat → Nat
  | [], _, _, commentStartByte => commentStartByte
  | n :: rest, found, lastCommentLine, commentStartByte =>
      if isCommentKind n.kind &&
          !found && decide (fnStartRow ≤ n.endRow + 2) then
        commentScan fnStartRow rest true n.startRow n.startByte
      else if isCommentKind n.kind &&
          found && decide (lastCommentLine ≤ n.endRow + 2) then
        commentScan fnStartRow rest found n.startRow n.startByte
      else if found then commentStartByte
      else commentScan fnStartRow rest found lastCommentLine commentStartByte

def extract_function_with_comments (siblings : List TSNode) (fnNode : TSNode)
    (src : ByteStr) : ByteStr :=
  let commentStartByte :=
    match siblings.findIdx? (fun n => n.ident == fnNode.ident) with
    | none => fnNode.startByte
    | some funcPos =>
        commentScan fnNode.startRow ((siblings.take funcPos).reverse)
          false fnNode.startRow fnNode.startByte
  sliceBytes src commentStartByte fnNode.endByte

/-- The ancestor walk of `extract_paragraph_with_heading`: push each
parent (document included), abort with `none` on a `list` ancestor, stop
at the document root. -/
def headingContexts :
    List (TSNode × List TSNode) → Option (List (TSNode × List TSNode))
  | [] => some []
  | (p, children) :: rest =>
      if p.kind == "list" then none
      else if p.kind == "document" then some [(p, children)]
      else match headingContexts rest with
        | none => none
        | some ctxs => some ((p, children) :: ctxs)

/-- Scan one context's children for the closest heading strictly above the
paragraph (smaller distance wins; on ties the earlier child is kept, as
the Rust update condition is a strict `<`). -/
def bestHeadingIn (paraStartRow : Nat) (children : List TSNode) :
    Option TSNode :=
  children.foldl
    (fun best n =>
      if (n.kind == "atx_heading" || n.kind == "setext_heading") &&
          decide (n.startRow < paraStartRow) then
        match best with
        | none => some n
        | some b =>
            if paraStartRow - n.startRow < paraStartRow - b.startRow then some n
            else best
      else best)
    none

/-- Walk contexts innermost-first; the first context containing any
heading ends the search. -/
def findHeading (paraStartRow : Nat) :
    List (TSNode × List TSNode) → Option TSNode
  | [] => none
  | (_, children) :: rest =>
      match bestHeadingIn paraStartRow children with
      | some hd => some hd
      | none => findHeading paraStartRow rest

def extract_paragraph_with_heading (ancestors : List (TSNode × List TSNode))
    (para : TSNode) (src : ByteStr) : Option ByteStr :=
  match headingContexts ancestors with
  | none => none
  | some ctxs =>
      match findHeading para.startRow ctxs with
      | some hd =>
          some (sliceBytes src hd.startByte hd.endByte ++ [10] ++
            sliceBytes src para.startByte para.endByte)
      | none => some (sliceBytes src para.startByte para.endByte)

structure Capture where
  node : TSNode
  siblings : List TSNode
  ancestors : List (TSNode × List TSNode)
deriving DecidableEq, Repr

structure FileMeta where
  mtime : Nat
  ctime : Nat
deriving DecidableEq, Repr

/-- The canonical id serialization (src/chunker.rs lines 433–445): hasher
updates over path bytes, `b":"`, the 0-based start row (`usize`, 8-byte
little-endian), `b":"`, the 0-based end row, `b":"`, the file hash
(`u64`, little-endian), `b":"`, the chunk hash.  A streaming xxh3 digest
equals the one-shot hash of the concatenation. -/
def serializeId (pathBytes : ByteStr)
    (startRow endRow fileHash chunkHash : Nat) : ByteStr :=
  pathBytes ++ [58] ++ leBytes8 startRow ++ [58] ++ leBytes8 endRow ++
    [58] ++ leBytes8 fileHash ++ [58] ++ leBytes8 chunkHash

/-- Rust `as u32` cast. -/
def u32Wrap (n : Nat) : Nat := n % 2 ^ 32

/-- One chunk record as built in the capture loop: lines are the captured
node's rows + 1 (never the comments'), `chunk_hash` hashes the full
extracted content (attached comments included), `id` hashes the
serialization of the 5-tuple. -/
def mkChunk (h : ByteStr → Nat) (path : String) (meta : FileMeta)
    (fileHash : Nat) (node : TSNode) (content : ByteStr) : Chunk :=
  let chunkHash := h content
  { id := h (serializeId (strBytes path) node.startRow node.endRow
        fileHash chunkHash)
    vector := none
    path := path
    start_line := u32Wrap (node.startRow + 1)
    end_line := u32Wrap (node.endRow + 1)
    file_hash := fileHash
    chunk_hash := chunkHash
    file_mtime := meta.mtime
    file_ctime := meta.ctime
    content := some content
    distance := none }

/-- Content extraction for one capture: the markdown paragraph/list path
may drop the capture (`continue`), every other capture yields the
function-with-comments slice. -/
def captureContent (langIsMarkdown : Bool) (src : ByteStr) (cap : Capture) :
    Option ByteStr :=
  if langIsMarkdown &&
      (cap.node.kind == "paragraph" || cap.node.kind == "list") then
    extract_paragraph_with_heading cap.ancestors cap.node src
  else
    some (extract_function_with_comments cap.siblings cap.node src)

/-- `chunk(content, path, metadata)` over the captures of the parse. -/
def chunk (h : ByteStr → Nat) (langIsMarkdown : Bool) (src : ByteStr)
    (path : String) (meta : FileMeta) (captures : List Capture) :
    List Chunk :=
  let fileHash := h src
  captures.filterMap (fun cap =>
    (captureContent langIsMarkdown src cap).map
      (mkChunk h path meta fileHash cap.node))

lemma mem_chunk {h : ByteStr → Nat} {langIsMarkdown : Bool} {src : ByteStr}
    {path : String} {meta : FileMeta} {captures : List Capture} {c : Chunk} :
    c ∈ chunk h langIsMarkdown src path meta captures ↔
      ∃ cap ∈ captures, ∃ content,
        captureContent langIsMarkdown src cap = some content ∧
        mkChunk h path meta (h src) cap.node content = c := by
  simp only [chunk, List.mem_filterMap, Option.map_eq_some']

/-- C3: every produced chunk's `id` is the fixed 64-bit hash of the byte
serialization (ASCII `:` separators, little-endian integers) of exactly
`(path, start_line − 1, end_line − 1, file_hash, chunk_hash)` — the
chunk's own stored fields — and chunking the same `(path, file bytes)`
again (captures are a pure function of the bytes; only filesystem
metadata may drift between runs) yields identical ids. -/
theorem C3_id_is_hash_of_serialized_tuple
    (h : ByteStr → Nat) (langIsMarkdown : Bool) (src : ByteStr)
    (path : String) (meta : FileMeta) (captures : List Capture)
    (h64 : ∀ bs, h bs < 2 ^ 64)
    (hrows : ∀ cap ∈ captures, cap.node.startRow + 1 < 2 ^ 32 ∧
      cap.node.endRow + 1 < 2 ^ 32) :
    (∀ c ∈ chunk h langIsMarkdown src path meta captures,
        c.id = h (serializeId (strBytes c.path) (c.start_line - 1)
          (c.end_line - 1) c.file_hash c.chunk_hash) ∧ c.id < 2 ^ 64) ∧
    (∀ meta' : FileMeta,
        (chunk h langIsMarkdown src path meta captures).map (·.id) =
          (chunk h langIsMarkdown src path meta' captures).map (·.id)) := by
  constructor
  · intro c hc
    rcases mem_chunk.mp hc with ⟨cap, hcap, content, _hcontent, rfl⟩
    obtain ⟨hs, he⟩ := hrows cap hcap
    refine ⟨?_, h64 _⟩
    simp only [mkChunk, u32Wrap]
    rw [Nat.mod_eq_of_lt hs, Nat.mod_eq_of_lt he, Nat.add_sub_cancel,
      Nat.add_sub_cancel]
  · intro meta'
    simp only [chunk, List.map_filterMap, Option.map_map]
    rfl

/-- C5: every produced chunk's `start_line`/`end_line` are the captured
node's own 1-based rows, hence `1 ≤ start_line ≤ end_line`; and for the
same captured function node, any change confined to the attached leading
comments (different source bytes and sibling comments) leaves
`start_line`/`end_line` untouched while the chunk's content is the
extracted slice (comments included) and `chunk_hash` is its hash — so a
comment edit changes content and hash but not the line range. -/
theorem C5_lines_from_node_not_comments
    (h : ByteStr → Nat) (langIsMarkdown : Bool) (src : ByteStr)
    (path : String) (meta : FileMeta) (captures : List Capture)
    (hwf : ∀ cap ∈ captures, cap.node.startRow ≤ cap.node.endRow ∧
      cap.node.endRow + 1 < 2 ^ 32) :
    (∀ c ∈ chunk h langIsMarkdown src path meta captures,
        1 ≤ c.start_line ∧ c.start_line ≤ c.end_line ∧
        ∃ cap ∈ captures, c.start_line = cap.node.startRow + 1 ∧
          c.end_line = cap.node.endRow + 1) ∧
    (∀ (src₁ src₂ : ByteStr) (sib₁ sib₂ : List TSNode) (node : TSNode)
        (meta₁ meta₂ : FileMeta) (fh₁ fh₂ : Nat),
        (mkChunk h path meta₁ fh₁ node
            (extract_function_with_comments sib₁ node src₁)).start_line =
          (mkChunk h path meta₂ fh₂ node
            (extract_function_with_comments sib₂ node src₂)).start_line ∧
        (mkChunk h path meta₁ fh₁ node
            (extract_function_with_comments sib₁ node src₁)).end_line =
          (mkChunk h path meta₂ fh₂ node
            (extract_function_with_comments sib₂ node src₂)).end_line ∧
        (mkChunk h path meta₁ fh₁ node
            (extract_function_with_comments sib₁ node src₁)).content =
          some (extract_function_with_comments sib₁ node src₁) ∧
        (mkChunk h path meta₁ fh₁ node
            (extract_function_with_comments sib₁ node src₁)).chunk_hash =
          h (extract_function_with_comments sib₁ node src₁)) := by
  constructor
  · intro c hc
    rcases mem_chunk.mp hc with ⟨cap, hcap, content, _hcontent, rfl⟩
    obtain ⟨hse, he⟩ := hwf cap hcap
    have hs : cap.node.startRow + 1 < 2 ^ 32 := by omega
    have hstart : (mkChunk h path meta (h src) cap.node content).start_line =
        cap.node.startRow + 1 := by
      simp only [mkChunk, u32Wrap]
      exact Nat.mod_eq_of_lt hs
    have hend : (mkChunk h path meta (h src) cap.node content).end_line =
        cap.node.endRow + 1 := by
      simp only [mkChunk, u32Wrap]
      exact Nat.mod_eq_of_lt he
    refine ⟨?_, ?_, cap, hcap, hstart, hend⟩
    · rw [hstart]; omega
    · rw [hstart, hend]; omega
  · intro src₁ src₂ sib₁ sib₂ node meta₁ meta₂ fh₁ fh₂
    exact ⟨rfl, rfl, rfl, rfl⟩

/-- A concrete stand-in 64-bit hash for the witnesses (the real xxhash is
external to the repository, so the theorems hold for every `h`). -/
def hSumW : ByteStr → Nat :=
  fun bs => (bs.map (fun b => b.toNat)).sum % 2 ^ 64

def commentNodeW : TSNode :=
  { ident := 1, kind := "comment", startByte := 0, endByte := 4,
    startRow := 0, endRow := 0 }

def fnNodeW : TSNode :=
  { ident := 2, kind := "function_item", startByte := 5, endByte := 13,
    startRow := 1, endRow := 1 }

/-- `"// a\nfn f(){}"` as bytes. -/
def srcW1 : ByteStr := [47, 47, 32, 97, 10, 102, 110, 32, 102, 40, 41, 123, 125]

/-- `"// b\nfn f(){}"` as bytes — only the leading comment differs. -/
def srcW2 : ByteStr := [47, 47, 32, 98, 10, 102, 110, 32, 102, 40, 41, 123, 125]

def captureW : Capture :=
  { node := fnNodeW, siblings := [commentNodeW, fnNodeW], ancestors := [] }

/-- Witness for C3: chunking the same bytes under drifted filesystem
metadata yields identical ids. -/
theorem C3_id_is_hash_of_serialized_tuple_witness :
    (chunk hSumW false srcW1 "a.rs" ⟨5, 6⟩ [captureW]).map (·.id) =
      (chunk hSumW false srcW1 "a.rs" ⟨7, 8⟩ [captureW]).map (·.id) :=
  (C3_id_is_hash_of_serialized_tuple hSumW false srcW1 "a.rs" ⟨5, 6⟩
    [captureW]
    (fun _ => Nat.mod_lt _ (by norm_num))
    (by decide)).2 ⟨7, 8⟩

/-- Witness for C5: editing the attached leading comment (`// a` →
`// b`) leaves both lines at 2 while the contents and their hashes
differ. -/
theorem C5_lines_from_node_not_comments_witness :
    (mkChunk hSumW "a.rs" ⟨5, 6⟩ (hSumW srcW1) fnNodeW
        (extract_function_with_comments [commentNodeW, fnNodeW] fnNodeW
          srcW1)).start_line =
      (mkChunk hSumW "a.rs" ⟨5, 6⟩ (hSumW srcW2) fnNodeW
        (extract_function_with_comments [commentNodeW, fnNodeW] fnNodeW
          srcW2)).start_line ∧
    (mkChunk hSumW "a.rs" ⟨5, 6⟩ (hSumW srcW1) fnNodeW
        (extract_function_with_comments [commentNodeW, fnNodeW] fnNodeW
          srcW1)).content ≠
      (mkChunk hSumW "a.rs" ⟨5, 6⟩ (hSumW srcW2) fnNodeW
        (extract_function_with_comments [commentNodeW, fnNodeW] fnNodeW
          srcW2)).content ∧
    (mkChunk hSumW "a.rs" ⟨5, 6⟩ (hSumW srcW1) fnNodeW
        (extract_function_with_comments [commentNodeW, fnNodeW] fnNodeW
          srcW1)).chunk_hash ≠
      (mkChunk hSumW "a.rs" ⟨5, 6⟩ (hSumW srcW2) fnNodeW
        (extract_function_with_comments [commentNodeW, fnNodeW] fnNodeW
          srcW2)).chunk_hash := by
  have hth := (C5_lines_from_node_not_comments hSumW false srcW1 "a.rs"
    ⟨5, 6⟩ [captureW] (by decide)).2 srcW1 srcW2
    [commentNodeW, fnNodeW] [commentNodeW, fnNodeW] fnNodeW
    ⟨5, 6⟩ ⟨5, 6⟩ (hSumW srcW1) (hSumW srcW2)
  exact ⟨hth.1, by decide, by decide⟩

end Turbogrep
